import Mathlib

/-!
Shallow embedding of `inflammation/models.py`.

Tables are `List (List ℚ)` (rows = patients, columns = days); the source
works on numpy float arrays, but all claimed behaviour is exact arithmetic,
so rationals model the values.  The only not-a-number the normalisation can
meet on valid (non-negative) input is `0 / 0`, which rational division
already sends to `0`, exactly the replacement the source performs with its
`isnan` mask.  Fallible functions return `Except`/`Option`.
-/

namespace Inflammation

/-- Maximum of a list, as `np.nanmax` computes it on a row of ordinary
(non-NaN) numbers: the running maximum starting from the first element.
Numpy rejects an empty row; the embedding returns 0 there, and every
theorem that needs the maximum only uses it on non-empty rows. -/
def rowNanMax : List ℚ → ℚ
  | [] => 0
  | x :: xs => xs.foldl max x

/-- Row transform of `patient_normalise`: divide each entry by the row
maximum (the broadcast `data / max_data[:, np.newaxis]`), then clamp
negative results to 0 (`normalised[normalised < 0] = 0`).  The `isnan`
mask of the source sets the `0 / 0` entries to `0`; rational division by
zero is already `0`, so that mask is absorbed into the division. -/
def normRow (row : List ℚ) : List ℚ :=
  (row.map (fun x => x / rowNanMax row)).map (fun y => if y < 0 then 0 else y)

/-- Embedding of `patient_normalise` (models.py lines 55-72).  The negative
check `np.any(data < 0)` runs first over the whole table; only then is the
output built, row by row, with `normRow`. -/
def patient_normalise (data : List (List ℚ)) : Except String (List (List ℚ)) :=
  if data.any (fun row => row.any (fun x => x < 0)) then
    Except.error "Inflammation values should not be negative"
  else
    Except.ok (data.map normRow)

/-- Numpy row indexing with an integer index: a negative index counts from
the end; an index at or beyond either end is an IndexError, modelled as
`none`. -/
def npIndex {α : Type} (xs : List α) (i : Int) : Option α :=
  let j := if i < 0 then i + (xs.length : Int) else i
  if 0 ≤ j then xs[j.toNat]? else none

/-- Embedding of the inner reducer `count_above_threshold` of
`daily_above_threshold` (models.py lines 84-88). -/
def count_above_threshold (a : Nat) (b : Bool) : Nat :=
  if b then a + 1 else a

/-- Embedding of `daily_above_threshold` (models.py lines 74-90): select the
row, map each value to the Boolean `x > threshold`, and reduce with
`count_above_threshold` from initial accumulator 0.  An out-of-range row
index is the `none` case. -/
def daily_above_threshold (row : Int) (data : List (List ℚ)) (threshold : ℚ) :
    Option Nat :=
  (npIndex data row).map (fun r =>
    (r.map (fun x => decide (threshold < x))).foldl count_above_threshold 0)

lemma foldl_count_above_threshold (p : ℚ → Bool) (xs : List ℚ) :
    ∀ n : Nat, (xs.map p).foldl count_above_threshold n = n + xs.countP p := by
  induction xs with
  | nil => intro n; simp
  | cons x xs ih =>
    intro n
    by_cases hx : p x
    · simp [count_above_threshold, hx, ih, List.countP_cons]
      omega
    · simp [count_above_threshold, hx, ih, List.countP_cons]

/-- C4: `daily_above_threshold`, a map to Booleans reduced from accumulator
0, equals the plain count of row values strictly above the threshold, and
on row 0 of `[[1,2,3],[4,5,6]]` with threshold 2 it returns 1. -/
theorem daily_above_threshold_eq_count (row : Int) (data : List (List ℚ))
    (threshold : ℚ) :
    daily_above_threshold row data threshold =
      (npIndex data row).map (fun r => r.countP (fun x => decide (threshold < x))) ∧
    daily_above_threshold 0 [[1, 2, 3], [4, 5, 6]] 2 = some 1 := by
  constructor
  · unfold daily_above_threshold
    cases npIndex data row with
    | none => rfl
    | some r =>
      simp [foldl_count_above_threshold (fun x => decide (threshold < x)) r 0]
  · decide

/-- C5: an out-of-range row index (at or past the number of rows, or below
the negative-index range) makes `daily_above_threshold` fail with the
IndexError equivalent `none`. -/
theorem daily_above_threshold_out_of_range (row : Int) (data : List (List ℚ))
    (threshold : ℚ)
    (h : row < -(data.length : Int) ∨ (data.length : Int) ≤ row) :
    daily_above_threshold row data threshold = none := by
  unfold daily_above_threshold npIndex
  rcases h with h | h
  · have hneg : row < 0 := by
      have : (0 : Int) ≤ (data.length : Int) := Int.ofNat_nonneg _
      omega
    have hlt : row + (data.length : Int) < 0 := by omega
    simp only [hneg, if_true]
    rw [if_neg (by omega)]
    rfl
  · have hnonneg : (0 : Int) ≤ row := by
      have : (0 : Int) ≤ (data.length : Int) := Int.ofNat_nonneg _
      omega
    have hnotneg : ¬ row < 0 := by omega
    simp only [hnotneg, if_false]
    rw [if_pos hnonneg]
    rw [List.getElem?_eq_none (by omega)]
    rfl

lemma le_foldl_max (acc : ℚ) (xs : List ℚ) : acc ≤ xs.foldl max acc := by
  induction xs generalizing acc with
  | nil => exact le_refl acc
  | cons x xs ih => exact le_trans (le_max_left acc x) (ih (max acc x))

lemma mem_le_foldl_max {x : ℚ} {xs : List ℚ} (acc : ℚ) (hx : x ∈ xs) :
    x ≤ xs.foldl max acc := by
  induction xs generalizing acc with
  | nil => cases hx
  | cons a as ih =>
    rcases List.mem_cons.mp hx with rfl | hmem
    · exact le_trans (le_max_right acc x) (le_foldl_max (max acc x) as)
    · exact ih (max acc a) hmem

lemma mem_le_rowNanMax {x : ℚ} {row : List ℚ} (hx : x ∈ row) :
    x ≤ rowNanMax row := by
  cases row with
  | nil => cases hx
  | cons a as =>
    rcases List.mem_cons.mp hx with rfl | hmem
    · exact le_foldl_max x as
    · exact mem_le_foldl_max a hmem

lemma rowNanMax_pos {row : List ℚ} (hpos : ∀ x ∈ row, 0 ≤ x)
    (hnz : ¬ ∀ x ∈ row, x = 0) : 0 < rowNanMax row := by
  push_neg at hnz
  obtain ⟨x, hxmem, hxne⟩ := hnz
  have hx : 0 < x := lt_of_le_of_ne (hpos x hxmem) (Ne.symm hxne)
  exact lt_of_lt_of_le hx (mem_le_rowNanMax hxmem)

lemma mem_normRow {y : ℚ} {row : List ℚ} (hy : y ∈ normRow row) :
    ∃ x ∈ row, y = (fun z => if z < 0 then 0 else z) (x / rowNanMax row) := by
  unfold normRow at hy
  obtain ⟨z, hz, rfl⟩ := List.mem_map.mp hy
  obtain ⟨x, hx, rfl⟩ := List.mem_map.mp hz
  exact ⟨x, hx, rfl⟩

/-- C2: `patient_normalise` fails with the ValueError equivalent exactly
when some entry of the table is negative; in the error case the result is
the error alone, so no partial output is produced. -/
theorem patient_normalise_error_iff (data : List (List ℚ)) :
    (∃ row ∈ data, ∃ x ∈ row, x < 0) ↔
      patient_normalise data =
        Except.error "Inflammation values should not be negative" := by
  unfold patient_normalise
  by_cases h : data.any (fun row => row.any (fun x => x < 0))
  · rw [if_pos h]
    simp only [List.any_eq_true, decide_eq_true_eq] at h
    exact iff_of_true h rfl
  · rw [if_neg h]
    simp only [List.any_eq_true, decide_eq_true_eq] at h
    exact iff_of_false h (by simp)

/-- C1: on a table with no negative entries `patient_normalise` succeeds,
every output entry lies in [0, 1], a row whose entries are all 0 (the case
in which the division gives not-a-number) maps to all 0, and otherwise
every position holding the row maximum maps to 1. -/
theorem patient_normalise_range (data : List (List ℚ))
    (hpos : ∀ row ∈ data, ∀ x ∈ row, 0 ≤ x) :
    ∃ out, patient_normalise data = Except.ok out ∧
      out.length = data.length ∧
      (∀ row ∈ out, ∀ y ∈ row, 0 ≤ y ∧ y ≤ 1) ∧
      (∀ (i : Nat) (row : List ℚ), data[i]? = some row →
        ∃ orow, out[i]? = some orow ∧
          ((∀ x ∈ row, x = 0) → ∀ y ∈ orow, y = 0) ∧
          (∀ (j : Nat), row[j]? = some (rowNanMax row) → ¬(∀ x ∈ row, x = 0) →
            orow[j]? = some 1)) := by
  have hok : patient_normalise data = Except.ok (data.map normRow) := by
    unfold patient_normalise
    rw [if_neg]
    simp only [List.any_eq_true, decide_eq_true_eq]
    push_neg
    exact hpos
  refine ⟨data.map normRow, hok, by simp, ?_, ?_⟩
  · intro orow horow y hy
    obtain ⟨row, hrow, rfl⟩ := List.mem_map.mp horow
    obtain ⟨x, hxmem, rfl⟩ := mem_normRow hy
    have hx : 0 ≤ x := hpos row hrow x hxmem
    by_cases hneg : x / rowNanMax row < 0
    · simp only [hneg, if_true]
      exact ⟨le_refl 0, zero_le_one⟩
    · simp only [hneg, if_false]
      refine ⟨le_of_not_lt hneg, ?_⟩
      by_cases hm : rowNanMax row = 0
      · rw [hm, div_zero]
        exact zero_le_one
      · have hmpos : 0 < rowNanMax row :=
          lt_of_le_of_ne (le_trans hx (mem_le_rowNanMax hxmem)) (Ne.symm hm)
        exact (div_le_one hmpos).mpr (mem_le_rowNanMax hxmem)
  · intro i row hrow
    have hmem : row ∈ data := List.mem_iff_getElem?.mpr ⟨i, hrow⟩
    refine ⟨normRow row, by rw [List.getElem?_map, hrow]; rfl, ?_, ?_⟩
    · intro hzero y hy
      obtain ⟨x, hxmem, rfl⟩ := mem_normRow hy
      rw [hzero x hxmem, zero_div]
      norm_num
    · intro j hj hnz
      have hmpos : 0 < rowNanMax row := rowNanMax_pos (hpos row hmem) hnz
      unfold normRow
      rw [List.getElem?_map, List.getElem?_map, hj]
      simp [div_self (ne_of_gt hmpos)]

/-- Witness for C1 on a table holding one positive row and one zero row. -/
theorem patient_normalise_range_witness :
    (∀ row ∈ [[(1 : ℚ), 2], [0, 0]], ∀ x ∈ row, 0 ≤ x) ∧
    (∃ out, patient_normalise [[(1 : ℚ), 2], [0, 0]] = Except.ok out ∧
      out.length = ([[(1 : ℚ), 2], [0, 0]] : List (List ℚ)).length ∧
      (∀ row ∈ out, ∀ y ∈ row, 0 ≤ y ∧ y ≤ 1) ∧
      (∀ (i : Nat) (row : List ℚ), ([[(1 : ℚ), 2], [0, 0]] : List (List ℚ))[i]? = some row →
        ∃ orow, out[i]? = some orow ∧
          ((∀ x ∈ row, x = 0) → ∀ y ∈ orow, y = 0) ∧
          (∀ (j : Nat), row[j]? = some (rowNanMax row) → ¬(∀ x ∈ row, x = 0) →
            orow[j]? = some 1))) :=
  ⟨by decide, patient_normalise_range [[(1 : ℚ), 2], [0, 0]] (by decide)⟩

/-- Witness for C5 at a concrete out-of-range index. -/
theorem daily_above_threshold_out_of_range_witness :
    ((5 : Int) < -(([[ (1 : ℚ) ]] : List (List ℚ)).length : Int) ∨
      ((([[ (1 : ℚ) ]] : List (List ℚ)).length : Int) ≤ 5)) ∧
    daily_above_threshold 5 [[(1 : ℚ)]] 0 = none :=
  ⟨by decide, daily_above_threshold_out_of_range 5 [[(1 : ℚ)]] 0 (by decide)⟩

/-- Number of days (columns) of a table, read off the first row as numpy
does for a rectangular array. -/
def numCols (data : List (List ℚ)) : Nat := (data.headD []).length

/-- Column `j` of the table: the value of day `j` for every patient, in
row order.  On a rectangular table every `getD` hits a real entry. -/
def col (data : List (List ℚ)) (j : Nat) : List ℚ :=
  data.map (fun row => row.getD j 0)

/-- Minimum of a non-empty list, as `np.min` computes it down a column. -/
def npMinList : List ℚ → ℚ
  | [] => 0
  | x :: xs => xs.foldl min x

/-- Embedding of `daily_mean` (models.py lines 21-27): `np.mean(data,
axis=0)`, the sum of each column divided by the number of patients. -/
def daily_mean (data : List (List ℚ)) : List ℚ :=
  (List.range (numCols data)).map (fun j => (col data j).sum / (data.length : ℚ))

/-- Embedding of `daily_max` (models.py lines 30-36): `np.max(data,
axis=0)`; on NaN-free values `np.max` is the running maximum `rowNanMax`
down each column. -/
def daily_max (data : List (List ℚ)) : List ℚ :=
  (List.range (numCols data)).map (fun j => rowNanMax (col data j))

/-- Embedding of `daily_min` (models.py lines 39-45): `np.min(data,
axis=0)`. -/
def daily_min (data : List (List ℚ)) : List ℚ :=
  (List.range (numCols data)).map (fun j => npMinList (col data j))

/-- Mean of a list of reals, the `umr_sum(arr) / div` step inside
`np.std`. -/
noncomputable def listMeanR (xs : List ℝ) : ℝ := xs.sum / (xs.length : ℝ)

/-- Embedding of `np.std` on one column with the default `ddof=0`: subtract
the column mean from each value, square, take the mean of the squares over
the full count `N`, and take the square root. -/
noncomputable def np_std (xs : List ℚ) : ℝ :=
  Real.sqrt (listMeanR ((xs.map (fun x : ℚ => (x : ℝ))).map
    (fun x => (x - listMeanR (xs.map (fun y : ℚ => (y : ℝ)))) ^ 2)))

/-- Embedding of `daily_std` (models.py lines 47-53): `np.std(data,
axis=0)`. -/
noncomputable def daily_std (data : List (List ℚ)) : List ℝ :=
  (List.range (numCols data)).map (fun j => np_std (col data j))

/-- Embedding of `calculate_sd` (models.py lines 103-107), whose body is
`np.std(data, axis=0)` again. -/
noncomputable def calculate_sd (data : List (List ℚ)) : List ℝ :=
  (List.range (numCols data)).map (fun j => np_std (col data j))

/-- Definition following the words of the spec: the population standard
deviation of a column, the square root of the mean squared deviation with
divisor `N`, the number of rows, not `N - 1`. -/
noncomputable def populationStdSpec (xs : List ℚ) : ℝ :=
  Real.sqrt ((xs.map (fun x : ℚ =>
      ((x : ℝ) - (xs.map (fun y : ℚ => (y : ℝ))).sum / (xs.length : ℝ)) ^ 2)).sum /
    (xs.length : ℝ))

/-- Record built by `attach_names`: the dict with keys `name` and `data`
(models.py lines 98-99). -/
structure PatientRecord where
  name : String
  data : List ℚ
deriving DecidableEq

/-- Embedding of `attach_names` (models.py lines 92-101): assert that the
table and the name list have the same length, then zip each row with its
name into a record, in order.  The failed assertion is the error case. -/
def attach_names (data : List (List ℚ)) (names : List String) :
    Except String (List PatientRecord) :=
  if data.length = names.length then
    Except.ok ((data.zip names).map (fun p => PatientRecord.mk p.2 p.1))
  else
    Except.error "LengthMismatch"

/-- C3: `attach_names` fails with the assertion equivalent exactly when the
name list length differs from the row count, returning no partial result;
with equal lengths it returns one record per row, pairing the i-th name
with the i-th row in input order. -/
theorem attach_names_spec (data : List (List ℚ)) (names : List String) :
    (attach_names data names = Except.error "LengthMismatch" ↔
      names.length ≠ data.length) ∧
    (names.length = data.length →
      ∃ out, attach_names data names = Except.ok out ∧
        out.length = data.length ∧
        ∀ (i : Nat) (ni : String) (ri : List ℚ),
          names[i]? = some ni → data[i]? = some ri →
          out[i]? = some (PatientRecord.mk ni ri)) := by
  constructor
  · unfold attach_names
    by_cases h : data.length = names.length
    · rw [if_pos h]
      exact iff_of_false (by simp) (by omega)
    · rw [if_neg h]
      exact iff_of_true rfl (by omega)
  · intro hlen
    have hok : attach_names data names =
        Except.ok ((data.zip names).map (fun p => PatientRecord.mk p.2 p.1)) := by
      unfold attach_names
      rw [if_pos hlen.symm]
    refine ⟨_, hok, ?_, ?_⟩
    · rw [List.length_map, List.length_zip, hlen, min_self]
    · intro i ni ri hni hri
      have hz : (data.zip names)[i]? = some ((ri, ni) : List ℚ × String) :=
        List.getElem?_zip_eq_some.mpr ⟨hri, hni⟩
      rw [List.getElem?_map, hz]
      rfl

/-- Witness for C3 on a two-row table with two names. -/
theorem attach_names_spec_witness :
    ((["a", "b"] : List String).length =
        ([[(1 : ℚ)], [2]] : List (List ℚ)).length) ∧
    (∃ out, attach_names [[(1 : ℚ)], [2]] ["a", "b"] = Except.ok out ∧
      out.length = ([[(1 : ℚ)], [2]] : List (List ℚ)).length ∧
      ∀ (i : Nat) (ni : String) (ri : List ℚ),
        (["a", "b"] : List String)[i]? = some ni →
        ([[(1 : ℚ)], [2]] : List (List ℚ))[i]? = some ri →
        out[i]? = some (PatientRecord.mk ni ri)) :=
  ⟨rfl, (attach_names_spec [[(1 : ℚ)], [2]] ["a", "b"]).2 rfl⟩

/-- Observation record (models.py lines 109-115): a day and a value. -/
structure Observation where
  day : Int
  value : ℚ
deriving DecidableEq

/-- Patient record (models.py lines 124-128): a name (inherited from
Person) and an initially empty ordered list of observations. -/
structure Patient where
  name : String
  observations : List Observation
deriving DecidableEq

/-- Embedding of `Patient.add_observation` (models.py lines 130-141): when
no day is given, the day after the last observation is used, or day 0 when
the list is empty (the IndexError branch); the new observation is appended
at the end, and returned alongside the updated patient. -/
def Patient.add_observation (p : Patient) (value : ℚ) (day : Option Int) :
    Patient × Observation :=
  let d : Int :=
    match day with
    | some d => d
    | none =>
      match p.observations.getLast? with
      | some o => o.day + 1
      | none => 0
  let newObservation : Observation := Observation.mk d value
  (Patient.mk p.name (p.observations ++ [newObservation]), newObservation)

/-- Fresh patient of the concrete scenario in the spec. -/
def alice0 : Patient := Patient.mk "Alice" []

/-- State after `add_observation(10)`. -/
def alice1 : Patient := (alice0.add_observation 10 none).1

/-- State after `add_observation(20)`. -/
def alice2 : Patient := (alice1.add_observation 20 none).1

/-- State after `add_observation(5, day=100)`. -/
def alice3 : Patient := (alice2.add_observation 5 (some 100)).1

/-- C6: an omitted day is the last observation day plus one, or 0 on an
empty history; a supplied day is used as-is; the new observation carries
the given value, is appended at the end and returned; the three-call
scenario on a fresh patient yields days [0, 1, 100] and values
[10, 20, 5] in insertion order. -/
theorem add_observation_spec (p : Patient) (v : ℚ) (d : Int) (day : Option Int) :
    ((p.add_observation v (some d)).2.day = d) ∧
    ((p.add_observation v none).2.day =
      ((p.observations.getLast?).map (fun o => o.day + 1)).getD 0) ∧
    ((p.add_observation v day).2.value = v) ∧
    ((p.add_observation v day).1.observations =
      p.observations ++ [(p.add_observation v day).2]) ∧
    ((p.add_observation v day).1.name = p.name) ∧
    (alice3.observations.map Observation.day = [0, 1, 100] ∧
      alice3.observations.map Observation.value = [10, 20, 5]) := by
  refine ⟨rfl, ?_, ?_, ?_, ?_, by decide⟩
  · unfold Patient.add_observation
    cases p.observations.getLast? <;> rfl
  · cases day <;> rfl
  · cases day <;> rfl
  · cases day <;> rfl

lemma foldl_max_replicate (v : ℚ) : ∀ k, (List.replicate k v).foldl max v = v := by
  intro k
  induction k with
  | zero => rfl
  | succ k ih => simpa [List.replicate_succ, max_self] using ih

lemma foldl_min_replicate (v : ℚ) : ∀ k, (List.replicate k v).foldl min v = v := by
  intro k
  induction k with
  | zero => rfl
  | succ k ih => simpa [List.replicate_succ, min_self] using ih

lemma col_uniform {data : List (List ℚ)} {v : ℚ} {j : Nat}
    (hrect : ∀ row ∈ data, row.length = numCols data)
    (hv : ∀ row ∈ data, ∀ x ∈ row, x = v)
    (hj : j < numCols data) :
    col data j = List.replicate data.length v := by
  unfold col
  rw [List.eq_replicate_iff]
  refine ⟨by simp, ?_⟩
  intro b hb
  obtain ⟨row, hrow, rfl⟩ := List.mem_map.mp hb
  have hjlt : j < row.length := by rw [hrect row hrow]; exact hj
  rw [List.getD_eq_getElem row 0 hjlt]
  exact hv row hrow _ (List.getElem_mem hjlt)

lemma listMeanR_replicate {n : Nat} (hn : n ≠ 0) (x : ℝ) :
    listMeanR (List.replicate n x) = x := by
  unfold listMeanR
  rw [List.sum_replicate, List.length_replicate, nsmul_eq_mul]
  exact mul_div_cancel_left₀ x (Nat.cast_ne_zero.mpr hn)

lemma np_std_replicate {n : Nat} (hn : n ≠ 0) (v : ℚ) :
    np_std (List.replicate n v) = 0 := by
  unfold np_std
  rw [List.map_replicate, listMeanR_replicate hn, List.map_replicate]
  rw [sub_self, zero_pow (by norm_num), listMeanR_replicate hn]
  exact Real.sqrt_zero

/-- C7: on a non-empty rectangular table whose entries all equal `v`,
`daily_mean`, `daily_max` and `daily_min` return `v` for every day, and
`daily_std` returns 0 for every day. -/
theorem daily_stats_uniform (data : List (List ℚ)) (v : ℚ)
    (hne : data ≠ [])
    (hrect : ∀ row ∈ data, row.length = numCols data)
    (hv : ∀ row ∈ data, ∀ x ∈ row, x = v) :
    daily_mean data = List.replicate (numCols data) v ∧
    daily_max data = List.replicate (numCols data) v ∧
    daily_min data = List.replicate (numCols data) v ∧
    daily_std data = List.replicate (numCols data) (0 : ℝ) := by
  have hn : data.length ≠ 0 := fun hc => hne (List.length_eq_zero.mp hc)
  obtain ⟨k, hk⟩ : ∃ k, data.length = k + 1 :=
    ⟨data.length - 1, (Nat.succ_pred_eq_of_pos (Nat.pos_of_ne_zero hn)).symm⟩
  refine ⟨?_, ?_, ?_, ?_⟩
  · unfold daily_mean
    rw [List.eq_replicate_iff]
    refine ⟨by simp, ?_⟩
    intro b hb
    obtain ⟨j, hj, rfl⟩ := List.mem_map.mp hb
    rw [col_uniform hrect hv (List.mem_range.mp hj)]
    rw [List.sum_replicate, nsmul_eq_mul]
    exact mul_div_cancel_left₀ v (Nat.cast_ne_zero.mpr hn)
  · unfold daily_max
    rw [List.eq_replicate_iff]
    refine ⟨by simp, ?_⟩
    intro b hb
    obtain ⟨j, hj, rfl⟩ := List.mem_map.mp hb
    rw [col_uniform hrect hv (List.mem_range.mp hj), hk, List.replicate_succ]
    exact foldl_max_replicate v k
  · unfold daily_min
    rw [List.eq_replicate_iff]
    refine ⟨by simp, ?_⟩
    intro b hb
    obtain ⟨j, hj, rfl⟩ := List.mem_map.mp hb
    rw [col_uniform hrect hv (List.mem_range.mp hj), hk, List.replicate_succ]
    exact foldl_min_replicate v k
  · unfold daily_std
    rw [List.eq_replicate_iff]
    refine ⟨by simp, ?_⟩
    intro b hb
    obtain ⟨j, hj, rfl⟩ := List.mem_map.mp hb
    rw [col_uniform hrect hv (List.mem_range.mp hj)]
    exact np_std_replicate hn v

/-- Witness for C7 on the uniform table [[3,3],[3,3]]. -/
theorem daily_stats_uniform_witness :
    (([[3, 3], [3, 3]] : List (List ℚ)) ≠ [] ∧
      (∀ row ∈ ([[3, 3], [3, 3]] : List (List ℚ)),
        row.length = numCols [[3, 3], [3, 3]]) ∧
      (∀ row ∈ ([[3, 3], [3, 3]] : List (List ℚ)), ∀ x ∈ row, x = 3)) ∧
    (daily_mean [[3, 3], [3, 3]] = List.replicate (numCols [[3, 3], [3, 3]]) 3 ∧
      daily_max [[3, 3], [3, 3]] = List.replicate (numCols [[3, 3], [3, 3]]) 3 ∧
      daily_min [[3, 3], [3, 3]] = List.replicate (numCols [[3, 3], [3, 3]]) 3 ∧
      daily_std [[3, 3], [3, 3]] = List.replicate (numCols [[3, 3], [3, 3]]) (0 : ℝ)) :=
  ⟨⟨by decide, by decide, by decide⟩,
    daily_stats_uniform [[3, 3], [3, 3]] 3 (by decide) (by decide) (by decide)⟩

lemma np_std_eq_populationStdSpec (xs : List ℚ) :
    np_std xs = populationStdSpec xs := by
  unfold np_std populationStdSpec listMeanR
  simp only [List.map_map, List.length_map]
  rfl

/-- C8: `daily_std` computes, for each column, the population standard
deviation with divisor `N`, the number of patients, not `N - 1`. -/
theorem daily_std_population (data : List (List ℚ)) (hne : data ≠ []) :
    daily_std data =
      (List.range (numCols data)).map (fun j => populationStdSpec (col data j)) := by
  unfold daily_std
  exact List.map_congr_left (fun j _ => np_std_eq_populationStdSpec (col data j))

/-- Witness for C8 on a concrete two-row table. -/
theorem daily_std_population_witness :
    (([[1, 2], [3, 4]] : List (List ℚ)) ≠ []) ∧
    daily_std [[1, 2], [3, 4]] =
      (List.range (numCols [[1, 2], [3, 4]])).map
        (fun j => populationStdSpec (col [[1, 2], [3, 4]] j)) :=
  ⟨by decide, daily_std_population [[1, 2], [3, 4]] (by decide)⟩

/-- C10: `calculate_sd` and `daily_std` are duplicate implementations of
the same per-column standard deviation; they agree on every table. -/
theorem calculate_sd_eq_daily_std (data : List (List ℚ)) :
    calculate_sd data = daily_std data := rfl

/-- Address of an array buffer in the store. -/
abbrev Addr := Nat

/-- Store of 2D array buffers: numpy arrays live here so that in-place
writes and fresh allocations are visible. -/
abbrev Store := List (List (List ℚ))

/-- Dereference an address. -/
def Store.read (s : Store) (a : Addr) : List (List ℚ) := s.getD a []

/-- Overwrite the buffer at an address in place. -/
def Store.write (s : Store) (a : Addr) (v : List (List ℚ)) : Store :=
  s.set a v

/-- Buffer-level embedding of `patient_normalise`, keeping track of which
numpy operations allocate and which write in place: the broadcast division
`data / max_data[:, np.newaxis]` allocates the fresh `normalised` buffer
(appended to the store at the fresh address `s.length`), and the two mask
assignments `normalised[np.isnan(normalised)] = 0` and
`normalised[normalised < 0] = 0` write to that buffer in place (on
rationals the `isnan` mask rewrite is the identity, the division having
already sent `0 / 0` to 0).  The input buffer is only ever read. -/
def patient_normalise_heap (s : Store) (a : Addr) : Except String (Store × Addr) :=
  let data := s.read a
  if data.any (fun row => row.any (fun x => x < 0)) then
    Except.error "Inflammation values should not be negative"
  else
    let divided := data.map (fun row => row.map (fun x => x / rowNanMax row))
    let r := s.length
    let s1 := s ++ [divided]
    let s2 := s1.write r ((s1.read r).map (fun row => row.map (fun y => y)))
    let s3 := s2.write r
      ((s2.read r).map (fun row => row.map (fun y => if y < 0 then 0 else y)))
    Except.ok (s3, r)

lemma read_append_lt {s : Store} {a : Addr} (v : List (List ℚ))
    (ha : a < s.length) : Store.read (s ++ [v]) a = s.read a := by
  unfold Store.read
  rw [List.getD_eq_getElem?_getD, List.getD_eq_getElem?_getD,
    List.getElem?_append, if_pos ha]

lemma read_append_len (s : Store) (v : List (List ℚ)) :
    Store.read (s ++ [v]) s.length = v := by
  unfold Store.read
  rw [List.getD_eq_getElem?_getD, List.getElem?_concat_length s v]
  rfl

lemma read_set_ne {s : Store} {a b : Addr} (v : List (List ℚ))
    (hab : a ≠ b) : Store.read (Store.write s a v) b = Store.read s b := by
  unfold Store.read Store.write
  rw [List.getD_eq_getElem?_getD, List.getD_eq_getElem?_getD,
    List.getElem?_set_ne hab]

lemma read_set_at {s : Store} {a : Addr} (v : List (List ℚ))
    (ha : a < s.length) : Store.read (Store.write s a v) a = v := by
  unfold Store.read Store.write
  rw [List.getD_eq_getElem?_getD, List.getElem?_set_eq_of_lt v ha]
  rfl

/-- C9: on a table with no negative entries, the buffer-level
`patient_normalise` returns a newly allocated buffer, distinct from the
input buffer, holding exactly the rows `patient_normalise` computes, and
the input buffer is left unchanged. -/
theorem patient_normalise_no_mutation (s : Store) (a : Addr)
    (ha : a < s.length)
    (hpos : ∀ row ∈ s.read a, ∀ x ∈ row, 0 ≤ x) :
    ∃ sFinal r, patient_normalise_heap s a = Except.ok (sFinal, r) ∧
      r ≠ a ∧
      Store.read sFinal a = Store.read s a ∧
      patient_normalise (s.read a) = Except.ok (Store.read sFinal r) := by
  have hcond : ((s.read a).any (fun row => row.any (fun x => x < 0))) = false := by
    by_cases hb : ((s.read a).any (fun row => row.any (fun x => x < 0))) = true
    · exfalso
      simp only [List.any_eq_true, decide_eq_true_eq] at hb
      obtain ⟨row, hrow, x, hx, hneg⟩ := hb
      exact absurd hneg (not_lt.mpr (hpos row hrow x hx))
    · exact Bool.eq_false_iff.mpr hb
  have hne : s.length ≠ a := (Nat.ne_of_lt ha).symm
  unfold patient_normalise_heap
  simp only []
  rw [hcond, if_neg Bool.false_ne_true]
  refine ⟨_, _, rfl, hne, ?_, ?_⟩
  · rw [read_set_ne _ hne, read_set_ne _ hne, read_append_lt _ ha]
  · have hlt : s.length <
        (s ++ [(s.read a).map (fun row => row.map (fun x => x / rowNanMax row))]).length := by
      rw [List.length_append]
      simp
    rw [read_set_at _ (by simpa [Store.write] using hlt), read_set_at _ hlt,
      read_append_len]
    unfold patient_normalise
    rw [hcond, if_neg Bool.false_ne_true]
    refine congrArg Except.ok ?_
    simp only [List.map_map]
    refine List.map_congr_left ?_
    intro row hrow
    simp only [Function.comp, normRow]
    rw [List.map_id']

/-- Witness for C9 on a one-buffer store holding the table [[1,2]]. -/
theorem patient_normalise_no_mutation_witness :
    ((0 : Addr) < ([[[(1 : ℚ), 2]]] : Store).length ∧
      (∀ row ∈ Store.read [[[(1 : ℚ), 2]]] 0, ∀ x ∈ row, 0 ≤ x)) ∧
    (∃ sFinal r,
      patient_normalise_heap [[[(1 : ℚ), 2]]] 0 = Except.ok (sFinal, r) ∧
      r ≠ 0 ∧
      Store.read sFinal 0 = Store.read [[[(1 : ℚ), 2]]] 0 ∧
      patient_normalise (Store.read [[[(1 : ℚ), 2]]] 0) =
        Except.ok (Store.read sFinal r)) :=
  ⟨⟨by decide, by decide⟩,
    patient_normalise_no_mutation [[[(1 : ℚ), 2]]] 0 (by decide) (by decide)⟩

end Inflammation
